import Mathlib

/-!
Shallow embedding of the request admission pipeline of `handleRequest`
in `src/danmu_api/utils/http-util.js`: token authentication, path
normalization, the cache-first comment lookup and the per-client
sliding-window rate limiter, together with the dispatch table.

JavaScript strings are modelled as `List Char`; the process-wide
`globals.requestHistory` `Map` is modelled as a total function from
client identifiers to timestamp lists, defaulting to `[]` (the code
initialises a missing key to `[]` before using it, so the total-function
model is observationally equivalent).  The external collaborators
(`getCommentCache`, `findUrlById`) are parameters of the environment;
`cleanupExpiredIPs` lives in `utils/cache-util.js`, which is not among
the sources, and is modelled from the spec.
-/

/-- JavaScript strings, modelled as lists of characters. -/
abbrev JStr := List Char

/-- `globals.requestHistory`: client identifier to its request timestamps. -/
abbrev History := JStr → List Int

/-- JavaScript `s.startsWith(pre)`: `strStarts s pre = true` iff `pre` is a
prefix of `s`. -/
def strStarts : JStr → JStr → Bool
  | _, [] => true
  | [], _ :: _ => false
  | b :: s, a :: p => decide (a = b) && strStarts s p

/-- Truthiness of an optional JavaScript string (`null` and `""` are falsy). -/
def jsTruthy : Option JStr → Bool
  | some s => !s.isEmpty
  | none => false

/-- `currentTime - timestamp <= oneMinute` with `oneMinute = 60 * 1000`:
the window predicate used by the rate-limit check in `handleRequest`. -/
def inWindow (now ts : Int) : Bool := decide (now - ts ≤ 60000)

/-- Modelled from the spec: `cleanupExpiredIPs` is defined in
`utils/cache-util.js`, which is not among the sources.  Per spec section 4.2
the sweep drops, for every tracked client, the timestamps older than
`now - 60s`; a timestamp exactly at `now - 60s` is not older and is kept. -/
def cleanupExpiredIPs (now : Int) (h : History) : History :=
  fun ip => (h ip).filter (inWindow now)

/-- `recentRequests` as computed at both rate-limit sites of `handleRequest`:
the client's history as read after the cleanup sweep, filtered by
`currentTime - timestamp <= oneMinute`.  Its length is compared with
`globals.rateLimitMaxRequests`. -/
def recentRequests (now : Int) (clientIp : JStr) (h : History) : List Int :=
  ((cleanupExpiredIPs now h) clientIp).filter (inWindow now)

/-- The rate-limit block that `handleRequest` runs on a comment cache miss
(it appears verbatim at both comment call sites): when
`globals.rateLimitMaxRequests > 0`, sweep expired entries, read the client's
history, count the in-window entries, reject with no recording when the
count reaches the capacity, otherwise record `now`.  Returns the admission
flag and the resulting `requestHistory`. -/
def rateLimitAdmit (cap now : Int) (clientIp : JStr) (h : History) : Bool × History :=
  if 0 < cap then
    if cap ≤ ((recentRequests now clientIp h).length : Int) then
      (false, cleanupExpiredIPs now h)
    else
      (true, fun ip =>
        if ip = clientIp then recentRequests now clientIp h ++ [now]
        else cleanupExpiredIPs now h ip)
  else
    (true, h)

/-- Value of a digit string, radix 10. -/
def digitsVal (ds : JStr) : Nat := ds.foldl (fun acc c => acc * 10 + (c.toNat - 48)) 0

/-- JavaScript `parseInt` as used on the trailing path segment: skip leading
spaces, optional sign, then the maximal decimal-digit prefix; `none` models
`NaN` (no digits at all). -/
def jsParseInt (s : JStr) : Option Int :=
  let s1 := s.dropWhile (fun c => decide (c = ' '))
  match s1 with
  | '-' :: rest =>
    let ds := rest.takeWhile Char.isDigit
    if ds.isEmpty then none else some (-(digitsVal ds : Int))
  | '+' :: rest =>
    let ds := rest.takeWhile Char.isDigit
    if ds.isEmpty then none else some ((digitsVal ds : Int))
  | _ =>
    let ds := s1.takeWhile Char.isDigit
    if ds.isEmpty then none else some ((digitsVal ds : Int))

/-- `path.split("/").filter(Boolean)`: the non-empty path segments. -/
def pathParts (p : JStr) : List JStr :=
  (List.splitOn '/' p).filter (fun s => !s.isEmpty)

/-- The token gate of `handleRequest`: fail when there is no segment or the
first segment differs from the configured token; otherwise drop the token
segment and rebuild the path as `"/" + parts.slice(1).join("/")`. -/
def stripToken (token p : JStr) : Option JStr :=
  match pathParts p with
  | [] => none
  | t :: rest => if t = token then some ('/' :: List.intercalate ['/'] rest) else none

/-- `path.split("/").pop()`: the last (possibly empty) slash-separated piece. -/
def lastSegment (p : JStr) : JStr := (List.splitOn '/' p).getLastD []

/-- Fuel-indexed version of the `while` loop that collapses duplicated
`/api/v2` prefixes: while the path starts with `/api/v2/api/v2/`, drop the
first `'/api/v2'.length = 7` characters. -/
def collapseFuel : Nat → JStr → JStr
  | 0, p => p
  | n + 1, p =>
    if strStarts p "/api/v2/api/v2/".data then collapseFuel n (p.drop 7) else p

/-- The collapse loop of the path normalizer; `p.length` steps of fuel are
enough since every iteration shortens the path by 7 characters. -/
def collapseApiV2 (p : JStr) : JStr := collapseFuel p.length p

/-- Path normalization of `handleRequest`: untouched for `/` and
`/api/logs`; otherwise collapse duplicated `/api/v2` prefixes, then prepend
`/api/v2` when the result neither starts with `/api/v2`, nor equals `/`,
nor starts with `/api/logs`. -/
def normalizePath (p : JStr) : JStr :=
  if p = "/".data ∨ p = "/api/logs".data then p
  else if strStarts (collapseApiV2 p) "/api/v2".data = false ∧ collapseApiV2 p ≠ "/".data
          ∧ strStarts (collapseApiV2 p) "/api/logs".data = false then
    "/api/v2".data ++ collapseApiV2 p
  else collapseApiV2 p

/-- Environment consumed by `handleRequest`: the configured token, the
rate-limit capacity, and the two external collaborators, the Comment Cache
(`getCommentCache`, `null` modelled as `none`; an empty list is a present
entry) and the Id-to-URL index (`findUrlById`). -/
structure Env where
  token : JStr
  rateLimitMaxRequests : Int
  getCommentCache : JStr → Option (List Nat)
  findUrlById : Int → Option JStr

/-- Canonical request: method, raw path, and the `url` / `format` query
parameters (`none` models an absent parameter). -/
structure Req where
  method : JStr
  path : JStr
  urlParam : Option JStr
  formatParam : Option JStr

/-- Structured JSON error body `{errorCode, success, errorMessage}`. -/
structure ErrorBody where
  errorCode : Int
  success : Bool
  errorMessage : JStr
deriving DecidableEq

/-- Responses produced by `handleRequest`.  Delegated handlers and the
formatter are external collaborators, modelled as opaque constructors
recording their arguments; `danmu` records the
`{count, comments}` payload handed to `formatDanmuResponse`. -/
inductive Resp where
  | homepage
  | noContent
  | errJson (status : Nat) (body : ErrorBody)
  | danmu (count : Nat) (comments : List Nat) (format : Option JStr)
  | searchAnime
  | searchEpisodes
  | matchAnime
  | bangumi (path : JStr)
  | commentByUrl (url : JStr) (format : Option JStr)
  | comment (path : JStr) (format : Option JStr)
  | logs
  | notFound
deriving DecidableEq

/-- `{errorCode:401, success:false, errorMessage:"Unauthorized"}`. -/
def body401 : ErrorBody := ⟨401, false, "Unauthorized".data⟩

/-- `{errorCode:400, success:false, errorMessage:"Missing commentId or url parameter"}`. -/
def body400 : ErrorBody := ⟨400, false, "Missing commentId or url parameter".data⟩

/-- `{errorCode:429, success:false, errorMessage:"Too many requests, please try again later"}`. -/
def body429 : ErrorBody := ⟨429, false, "Too many requests, please try again later".data⟩

/-- The comment id parsed from the path: `parseInt(path.split("/").pop())`. -/
def commentIdOf (p : JStr) : Option Int := jsParseInt (lastSegment p)

/-- `findUrlById(commentId)`: the index is consulted with the parsed id; a
failed parse (`NaN`) resolves to nothing. -/
def urlForCommentOf (env : Env) (p : JStr) : Option JStr :=
  (commentIdOf p).bind env.findUrlById

/-- The id-addressed cache probe of `handleRequest`: only a truthy resolved
URL is looked up in the comment cache. -/
def idCacheLookup (env : Env) (p : JStr) : Option (List Nat) :=
  match urlForCommentOf env p with
  | some u => if u.isEmpty then none else env.getCommentCache u
  | none => none

/-- The comment-route body of `handleRequest` (`path` is the normalized
path, already known to start with `/api/v2/comment`): url-addressed lookup
with cache-first short-circuit, else the 400 guard, else id-addressed
lookup with cache-first short-circuit; on any cache miss the rate-limit
block runs before delegating. -/
def handleComment (env : Env) (req : Req) (path : JStr) (clientIp : JStr) (now : Int)
    (h : History) : Resp × History :=
  if jsTruthy req.urlParam then
    match env.getCommentCache (req.urlParam.getD []) with
    | some cachedComments => (.danmu cachedComments.length cachedComments req.formatParam, h)
    | none =>
      if (rateLimitAdmit env.rateLimitMaxRequests now clientIp h).1 then
        (.commentByUrl (req.urlParam.getD []) req.formatParam,
         (rateLimitAdmit env.rateLimitMaxRequests now clientIp h).2)
      else
        (.errJson 429 body429, (rateLimitAdmit env.rateLimitMaxRequests now clientIp h).2)
  else if !(strStarts path "/api/v2/comment/".data) then
    (.errJson 400 body400, h)
  else
    match idCacheLookup env path with
    | some cachedComments => (.danmu cachedComments.length cachedComments req.formatParam, h)
    | none =>
      if (rateLimitAdmit env.rateLimitMaxRequests now clientIp h).1 then
        (.comment path req.formatParam,
         (rateLimitAdmit env.rateLimitMaxRequests now clientIp h).2)
      else
        (.errJson 429 body429, (rateLimitAdmit env.rateLimitMaxRequests now clientIp h).2)

/-- The admission pipeline of `handleRequest`: homepage shortcut, the
favicon/robots no-content shortcut, token gate, path normalization, and the
dispatch chain in source order. -/
def handleRequest (env : Env) (req : Req) (clientIp : JStr) (now : Int)
    (h : History) : Resp × History :=
  if req.path = "/".data ∧ req.method = "GET".data then (.homepage, h)
  else if req.path = "/favicon.ico".data ∨ req.path = "/robots.txt".data then (.noContent, h)
  else
    match stripToken env.token req.path with
    | none => (.errJson 401 body401, h)
    | some p0 =>
      let path := normalizePath p0
      if path = "/".data ∧ req.method = "GET".data then (.homepage, h)
      else if path = "/api/v2/search/anime".data ∧ req.method = "GET".data then (.searchAnime, h)
      else if path = "/api/v2/search/episodes".data ∧ req.method = "GET".data then (.searchEpisodes, h)
      else if path = "/api/v2/match".data ∧ req.method = "POST".data then (.matchAnime, h)
      else if strStarts path "/api/v2/bangumi/".data ∧ req.method = "GET".data then (.bangumi path, h)
      else if strStarts path "/api/v2/comment".data ∧ req.method = "GET".data then
        handleComment env req path clientIp now h
      else if path = "/api/logs".data ∧ req.method = "GET".data then (.logs, h)
      else (.notFound, h)

/-- The two cache probes of the comment route, keyed the way the route is
addressed: by the `url` query parameter when it is truthy, otherwise by the
URL resolved from the trailing path id. -/
def commentCacheHit (env : Env) (req : Req) (path : JStr) : Option (List Nat) :=
  if jsTruthy req.urlParam then env.getCommentCache (req.urlParam.getD [])
  else idCacheLookup env path

/-- A comment request that misses every cache probe and therefore reaches
the rate-limit block: either a truthy `url` parameter whose cache lookup is
empty, or no truthy `url` parameter, a path extending `/api/v2/comment/`,
and an id probe that yields nothing. -/
def commentMiss (env : Env) (req : Req) (path : JStr) : Prop :=
  (jsTruthy req.urlParam = true ∧ env.getCommentCache (req.urlParam.getD []) = none)
  ∨ (jsTruthy req.urlParam = false ∧ strStarts path "/api/v2/comment/".data = true
      ∧ idCacheLookup env path = none)

/-- Sequential runs of `handleRequest` threading the request history. -/
def runRequests (env : Env) : List (Req × JStr × Int) → History → List Resp × History
  | [], h => ([], h)
  | (req, ip, now) :: rest, h =>
    ((handleRequest env req ip now h).1 :: (runRequests env rest (handleRequest env req ip now h).2).1,
     (runRequests env rest (handleRequest env req ip now h).2).2)

/-- Sequential calls of the rate-limit block for one client, threading the
request history and collecting the admission flags. -/
def admitSeq (cap : Int) (c : JStr) : List Int → History → List Bool × History
  | [], h => ([], h)
  | t :: ts, h =>
    ((rateLimitAdmit cap t c h).1 :: (admitSeq cap c ts (rateLimitAdmit cap t c h).2).1,
     (admitSeq cap c ts (rateLimitAdmit cap t c h).2).2)

/-- The timestamps of the admitted calls of a sequence. -/
def admittedTimes : List Int → List Bool → List Int
  | [], _ => []
  | _ :: _, [] => []
  | t :: ts, ok :: oks => if ok then t :: admittedTimes ts oks else admittedTimes ts oks

/-- Membership of `s` in the trailing 60-second window ending at `t`. -/
def inClosedWindow (t s : Int) : Bool := decide (t - 60000 ≤ s) && decide (s ≤ t)

/-! ### Concrete fixtures used by witnesses and counterexamples -/

/-- Fixture: the empty request history. -/
def hist0 : History := fun _ => []

/-- Fixture: a history with a single entry at time `0` for client `ip`. -/
def hist1 : History := fun ip => if ip = "ip".data then [0] else []

/-- Fixture environment: token `t`, capacity 5, one cache entry for URL `u1`. -/
def envA : Env :=
  ⟨"t".data, 5, fun u => if u = "u1".data then some [1, 2] else none, fun _ => none⟩

/-- Fixture environment: token `t`, capacity 0, empty cache and index. -/
def envB : Env := ⟨"t".data, 0, fun _ => none, fun _ => none⟩

/-- Fixture environment: token `t`, capacity 1, empty cache and index. -/
def envC : Env := ⟨"t".data, 1, fun _ => none, fun _ => none⟩

/-- Fixture: GET comment request carrying a `url` parameter. -/
def reqUrl : Req := ⟨"GET".data, "/t/api/v2/comment".data, some "u1".data, none⟩

/-- Fixture: GET comment request addressed by a malformed trailing id. -/
def reqBadId : Req := ⟨"GET".data, "/t/api/v2/comment/abc".data, none, none⟩

/-- Fixture: GET comment request with neither id segment nor `url` parameter. -/
def reqNoId : Req := ⟨"GET".data, "/t/api/v2/comment".data, none, none⟩

/-- Fixture: request whose first segment does not match the token `t`. -/
def reqWrongTok : Req := ⟨"GET".data, "/wrong/api/v2/search/anime".data, none, none⟩

/-- Fixture: favicon request. -/
def reqFav : Req := ⟨"GET".data, "/favicon.ico".data, none, none⟩

/-! ### Prefix lemmas for `strStarts` -/

theorem strStarts_nil (s : JStr) : strStarts s [] = true := by
  cases s <;> rfl

theorem strStarts_append (a t : JStr) : strStarts (a ++ t) a = true := by
  induction a with
  | nil => exact strStarts_nil t
  | cons x a ih => simp [strStarts, ih]

theorem length_le_of_strStarts {s a : JStr} (h : strStarts s a = true) :
    a.length ≤ s.length := by
  induction a generalizing s with
  | nil => simp
  | cons x a ih =>
    cases s with
    | nil => simp [strStarts] at h
    | cons y s =>
      simp only [strStarts, Bool.and_eq_true, decide_eq_true_eq] at h
      simpa [List.length_cons] using Nat.succ_le_succ (ih h.2)

theorem strStarts_trans {s a b : JStr} (h1 : strStarts s a = true)
    (h2 : strStarts a b = true) : strStarts s b = true := by
  induction b generalizing a s with
  | nil => exact strStarts_nil s
  | cons x b ih =>
    cases a with
    | nil => simp [strStarts] at h2
    | cons y a =>
      cases s with
      | nil => simp [strStarts] at h1
      | cons z s =>
        simp only [strStarts, Bool.and_eq_true, decide_eq_true_eq] at h1 h2 ⊢
        exact ⟨h2.1.trans h1.1, ih h1.2 h2.2⟩

theorem strStarts_of_both {p a b : JStr} (h1 : strStarts p a = true)
    (h2 : strStarts p b = true) (hl : a.length ≤ b.length) :
    strStarts b a = true := by
  induction a generalizing b p with
  | nil => exact strStarts_nil b
  | cons x a ih =>
    cases p with
    | nil => simp [strStarts] at h1
    | cons z p =>
      cases b with
      | nil => simp at hl
      | cons y b =>
        simp only [strStarts, Bool.and_eq_true, decide_eq_true_eq] at h1 h2 ⊢
        exact ⟨h1.1.trans h2.1.symm, ih h1.2 h2.2 (Nat.succ_le_succ_iff.mp hl)⟩

theorem strStarts_append_cancel (c : JStr) (s t : JStr) :
    strStarts (c ++ s) (c ++ t) = strStarts s t := by
  induction c with
  | nil => rfl
  | cons x c ih => simp [strStarts, ih]

/-! ### The collapse loop reaches a duplication-free fixpoint -/

theorem collapseFuel_noDup : ∀ (n : Nat) (p : JStr), p.length ≤ n →
    strStarts (collapseFuel n p) "/api/v2/api/v2/".data = false := by
  intro n
  induction n with
  | zero =>
    intro p hp
    have : p = [] := List.eq_nil_of_length_eq_zero (Nat.le_zero.mp hp)
    subst this
    decide
  | succ n ih =>
    intro p hp
    by_cases hd : strStarts p "/api/v2/api/v2/".data = true
    · rw [collapseFuel, if_pos hd]
      apply ih
      have hlen : ("/api/v2/api/v2/".data).length ≤ p.length := length_le_of_strStarts hd
      simp only [List.length_drop]
      revert hlen hp
      have : ("/api/v2/api/v2/".data).length = 15 := by decide
      rw [this]
      omega
    · rw [collapseFuel, if_neg hd]
      simpa using hd

theorem collapseFuel_eq_of_noDup (n : Nat) (p : JStr)
    (h : strStarts p "/api/v2/api/v2/".data = false) : collapseFuel n p = p := by
  cases n with
  | zero => rfl
  | succ n => rw [collapseFuel, if_neg (by simp [h])]

theorem collapseApiV2_noDup (p : JStr) :
    strStarts (collapseApiV2 p) "/api/v2/api/v2/".data = false :=
  collapseFuel_noDup p.length p le_rfl

theorem collapseApiV2_eq_of_noDup (p : JStr)
    (h : strStarts p "/api/v2/api/v2/".data = false) : collapseApiV2 p = p :=
  collapseFuel_eq_of_noDup p.length p h

/-- The normalizer leaves a path alone when it is already in canonical
shape and free of duplicated `/api/v2` prefixes. -/
theorem normalizePath_eq_self (q : JStr)
    (hnodup : strStarts q "/api/v2/api/v2/".data = false)
    (hq : strStarts q "/api/v2".data = true ∨ q = "/".data ∨ q = "/api/logs".data
          ∨ strStarts q "/api/logs".data = true) :
    normalizePath q = q := by
  unfold normalizePath
  by_cases hg : q = "/".data ∨ q = "/api/logs".data
  · rw [if_pos hg]
  · rw [if_neg hg, collapseApiV2_eq_of_noDup q hnodup]
    rw [if_neg ?_]
    rintro ⟨hv, hr, hl⟩
    rcases hq with h | h | h | h
    · rw [h] at hv; cases hv
    · exact hr h
    · exact hg (Or.inr h)
    · rw [h] at hl; cases hl


/-! ### C3: shape of the normalized path -/

/-- C3 (counterexample): the authenticated path `/api/logsx` survives
normalization unchanged and reaches the dispatch chain, yet it neither
equals `/`, nor starts with `/api/v2`, nor equals `/api/logs` — the claim's
"equals /api/logs" disjunct is too strong, the code only guards a
`startsWith('/api/logs')` prefix. -/
theorem normalized_path_shape_cex :
    stripToken "t".data "/t/api/logsx".data = some "/api/logsx".data
    ∧ normalizePath "/api/logsx".data = "/api/logsx".data
    ∧ ¬("/api/logsx".data = "/".data
        ∨ strStarts "/api/logsx".data "/api/v2".data = true
        ∨ "/api/logsx".data = "/api/logs".data) := by
  refine ⟨by decide, by decide, by decide⟩

/-- C3 (amended): for every authenticated request, the canonical path
handed to the dispatch chain either equals `/`, or starts with `/api/v2`,
or starts with `/api/logs`. -/
theorem normalized_path_shape (tok raw p0 : JStr)
    (hauth : stripToken tok raw = some p0) :
    normalizePath p0 = "/".data
    ∨ strStarts (normalizePath p0) "/api/v2".data = true
    ∨ strStarts (normalizePath p0) "/api/logs".data = true := by
  unfold normalizePath
  by_cases h1 : p0 = "/".data ∨ p0 = "/api/logs".data
  · rw [if_pos h1]
    rcases h1 with h | h <;> subst h
    · exact Or.inl rfl
    · exact Or.inr (Or.inr (by decide))
  · rw [if_neg h1]
    by_cases h2 : strStarts (collapseApiV2 p0) "/api/v2".data = false
        ∧ collapseApiV2 p0 ≠ "/".data
        ∧ strStarts (collapseApiV2 p0) "/api/logs".data = false
    · rw [if_pos h2]
      exact Or.inr (Or.inl (strStarts_append _ _))
    · rw [if_neg h2]
      by_cases hv : strStarts (collapseApiV2 p0) "/api/v2".data = true
      · exact Or.inr (Or.inl hv)
      · by_cases hr : collapseApiV2 p0 = "/".data
        · exact Or.inl hr
        · by_cases hl : strStarts (collapseApiV2 p0) "/api/logs".data = true
          · exact Or.inr (Or.inr hl)
          · exact absurd ⟨by simpa using hv, hr, by simpa using hl⟩ h2

/-- C3 (witness). -/
theorem normalized_path_shape_witness :
    normalizePath "/search/anime".data = "/".data
    ∨ strStarts (normalizePath "/search/anime".data) "/api/v2".data = true
    ∨ strStarts (normalizePath "/search/anime".data) "/api/logs".data = true :=
  normalized_path_shape "t".data "/t/search/anime".data "/search/anime".data (by decide)

/-! ### C7: idempotence of the normalizer -/

/-- C7: for every path other than `/` and `/api/logs`, the normalization
procedure is idempotent: applying it to its own output returns the output
unchanged. -/
theorem normalize_idempotent (p : JStr) (h1 : p ≠ "/".data) (h2 : p ≠ "/api/logs".data) :
    normalizePath (normalizePath p) = normalizePath p := by
  have hg : ¬(p = "/".data ∨ p = "/api/logs".data) := by
    rintro (h | h)
    · exact h1 h
    · exact h2 h
  have hnodup : strStarts (collapseApiV2 p) "/api/v2/api/v2/".data = false :=
    collapseApiV2_noDup p
  by_cases hc : strStarts (collapseApiV2 p) "/api/v2".data = false
      ∧ collapseApiV2 p ≠ "/".data
      ∧ strStarts (collapseApiV2 p) "/api/logs".data = false
  · have hout : normalizePath p = "/api/v2".data ++ collapseApiV2 p := by
      unfold normalizePath
      rw [if_neg hg, if_pos hc]
    rw [hout]
    apply normalizePath_eq_self
    · have hsplit : "/api/v2/api/v2/".data = "/api/v2".data ++ "/api/v2/".data := by decide
      rw [hsplit, strStarts_append_cancel]
      by_contra hq8
      have hq8' : strStarts (collapseApiV2 p) "/api/v2/".data = true := by simpa using hq8
      have hv2 : strStarts (collapseApiV2 p) "/api/v2".data = true :=
        strStarts_trans hq8' (by decide)
      rw [hc.1] at hv2
      cases hv2
    · exact Or.inl (strStarts_append _ _)
  · have hout : normalizePath p = collapseApiV2 p := by
      unfold normalizePath
      rw [if_neg hg, if_neg hc]
    rw [hout]
    apply normalizePath_eq_self _ hnodup
    by_cases hv : strStarts (collapseApiV2 p) "/api/v2".data = true
    · exact Or.inl hv
    · by_cases hr : collapseApiV2 p = "/".data
      · exact Or.inr (Or.inl hr)
      · by_cases hl : strStarts (collapseApiV2 p) "/api/logs".data = true
        · exact Or.inr (Or.inr (Or.inr hl))
        · exact absurd ⟨by simpa using hv, hr, by simpa using hl⟩ hc

/-- C7 (witness). -/
theorem normalize_idempotent_witness :
    normalizePath (normalizePath "/api/v2/api/v2/search/anime".data)
      = normalizePath "/api/v2/api/v2/search/anime".data :=
  normalize_idempotent "/api/v2/api/v2/search/anime".data (by decide) (by decide)

/-! ### C8: the token gate -/

/-- C8: any request whose path is not `/`, `/favicon.ico` or `/robots.txt`
and whose first non-empty segment is missing or differs from the configured
token gets HTTP 401 `{errorCode:401, success:false,
errorMessage:"Unauthorized"}`; the two literal paths `/favicon.ico` and
`/robots.txt` bypass the token check and get the 204 no-content response. -/
theorem token_gate (env : Env) (req : Req) (clientIp : JStr) (now : Int) (h : History) :
    ((req.path ≠ "/".data ∧ req.path ≠ "/favicon.ico".data ∧ req.path ≠ "/robots.txt".data
        ∧ ∀ t, (pathParts req.path).head? = some t → t ≠ env.token) →
      handleRequest env req clientIp now h = (.errJson 401 body401, h))
    ∧ ((req.path = "/favicon.ico".data ∨ req.path = "/robots.txt".data) →
      handleRequest env req clientIp now h = (.noContent, h)) := by
  constructor
  · rintro ⟨hroot, hfav, hrob, hfail⟩
    have hnone : stripToken env.token req.path = none := by
      unfold stripToken
      cases hp : pathParts req.path with
      | nil => rfl
      | cons t rest =>
        show (if t = env.token then some ('/' :: List.intercalate ['/'] rest) else none) = none
        rw [if_neg (hfail t (by rw [hp]; rfl))]
    unfold handleRequest
    rw [if_neg (fun hh => hroot hh.1),
        if_neg (by rintro (e | e); exacts [hfav e, hrob e]), hnone]
  · rintro (e | e)
    · unfold handleRequest
      rw [if_neg (by rintro ⟨h1, _⟩; rw [e] at h1; exact absurd h1 (by decide)),
          if_pos (Or.inl e)]
    · unfold handleRequest
      rw [if_neg (by rintro ⟨h1, _⟩; rw [e] at h1; exact absurd h1 (by decide)),
          if_pos (Or.inr e)]

/-- C8 (witness): a wrong-token request gets the 401 body, the favicon
request gets 204. -/
theorem token_gate_witness :
    handleRequest envA reqWrongTok "ip".data 0 hist0 = (.errJson 401 body401, hist0)
    ∧ handleRequest envA reqFav "ip".data 0 hist0 = (.noContent, hist0) :=
  ⟨(token_gate envA reqWrongTok "ip".data 0 hist0).1
      ⟨by decide, by decide, by decide, by decide⟩,
   (token_gate envA reqFav "ip".data 0 hist0).2 (Or.inl rfl)⟩

/-! ### C2: the window boundary -/

/-- C2 (counterexample): a single history entry recorded at time `0`,
checked at `now = 60000` — exactly `windowMs` later — is still part of the
compared count (the code keeps `currentTime - timestamp <= oneMinute`), and
with capacity 1 the request is rejected; the claim says the entry should no
longer count. -/
theorem window_boundary_cex :
    recentRequests 60000 "ip".data hist1 = [0]
    ∧ (rateLimitAdmit 1 60000 "ip".data hist1).1 = false := by
  refine ⟨by decide, by decide⟩

/-- C2 (amended): an entry exactly `60000` ms old still counts against the
current check; an entry of the client's history is part of the compared
count iff it is at most `60000` ms old, so exactly the strictly older
entries are excluded. -/
theorem window_boundary_amended (now : Int) (c : JStr) (h : History) (x : Int)
    (hx : x ∈ h c) :
    x ∈ recentRequests now c h ↔ now - x ≤ 60000 := by
  simp [recentRequests, cleanupExpiredIPs, List.mem_filter, inWindow, hx]

/-- C2 (witness). -/
theorem window_boundary_amended_witness :
    (0 : Int) ∈ recentRequests 60000 "ip".data hist1 ↔ (60000 : Int) - 0 ≤ 60000 :=
  window_boundary_amended 60000 "ip".data hist1 0 (by decide)

/-! ### Dispatch scaffolding for the comment route -/

theorem stripToken_root (tk : JStr) : stripToken tk "/".data = none := rfl

theorem stripToken_fav (tk : JStr) :
    stripToken tk "/favicon.ico".data
      = if "favicon.ico".data = tk then some "/".data else none := rfl

theorem stripToken_rob (tk : JStr) :
    stripToken tk "/robots.txt".data
      = if "robots.txt".data = tk then some "/".data else none := rfl

/-- Under a GET method, a successful token strip, and a normalized path in
the `/api/v2/comment` family, the dispatch chain of `handleRequest` lands in
the comment route. -/
theorem handleRequest_comment (env : Env) (req : Req) (clientIp : JStr) (now : Int)
    (h : History) (p0 : JStr)
    (hm : req.method = "GET".data)
    (ha : stripToken env.token req.path = some p0)
    (hc : strStarts (normalizePath p0) "/api/v2/comment".data = true) :
    handleRequest env req clientIp now h
      = handleComment env req (normalizePath p0) clientIp now h := by
  have hroot : req.path ≠ "/".data := by
    intro e; rw [e, stripToken_root] at ha; cases ha
  have hfav : req.path ≠ "/favicon.ico".data := by
    intro e
    rw [e, stripToken_fav] at ha
    by_cases htk : "favicon.ico".data = env.token
    · rw [if_pos htk, Option.some_inj] at ha
      rw [← ha] at hc
      exact absurd hc (by decide)
    · rw [if_neg htk] at ha; cases ha
  have hrob : req.path ≠ "/robots.txt".data := by
    intro e
    rw [e, stripToken_rob] at ha
    by_cases htk : "robots.txt".data = env.token
    · rw [if_pos htk, Option.some_inj] at ha
      rw [← ha] at hc
      exact absurd hc (by decide)
    · rw [if_neg htk] at ha; cases ha
  have hA : normalizePath p0 ≠ "/".data := by
    intro e; rw [e] at hc; exact absurd hc (by decide)
  have hB : normalizePath p0 ≠ "/api/v2/search/anime".data := by
    intro e; rw [e] at hc; exact absurd hc (by decide)
  have hC : normalizePath p0 ≠ "/api/v2/search/episodes".data := by
    intro e; rw [e] at hc; exact absurd hc (by decide)
  have hE : strStarts (normalizePath p0) "/api/v2/bangumi/".data = false := by
    by_contra he
    have he' : strStarts (normalizePath p0) "/api/v2/bangumi/".data = true := by
      simpa using he
    have := strStarts_of_both hc he' (by decide)
    exact absurd this (by decide)
  unfold handleRequest
  rw [if_neg (fun hh => hroot hh.1),
      if_neg (by rintro (e | e); exacts [hfav e, hrob e]), ha]
  dsimp only
  rw [if_neg (fun hh => hA hh.1), if_neg (fun hh => hB hh.1), if_neg (fun hh => hC hh.1),
      if_neg (by rintro ⟨_, hh⟩; rw [hm] at hh; exact absurd hh (by decide)),
      if_neg (by rintro ⟨hh, _⟩; rw [hE] at hh; cases hh),
      if_pos ⟨hc, hm⟩]

theorem recentRequests_eq (now : Int) (c : JStr) (h : History) :
    recentRequests now c h = (h c).filter (inWindow now) := by
  unfold recentRequests cleanupExpiredIPs
  rw [List.filter_filter]
  congr 1
  funext a
  exact Bool.and_self _

/-! ### C1: cache hits bypass the rate limiter -/

/-- C1: a GET comment request whose cache probe hits — by truthy `url`
parameter, or by a numeric id resolving to a cached URL — returns the
formatted cached payload immediately: the request history is returned
unchanged, the response does not depend on the history, and the rate
limiter is never consulted, for every capacity setting and prior history. -/
theorem cache_hit_skips_rate_limiter (env : Env) (req : Req) (clientIp : JStr)
    (now : Int) (h h' : History) (p0 : JStr) (cs : List Nat)
    (hm : req.method = "GET".data)
    (ha : stripToken env.token req.path = some p0)
    (hc : strStarts (normalizePath p0) "/api/v2/comment".data = true)
    (hseg : jsTruthy req.urlParam = false →
      strStarts (normalizePath p0) "/api/v2/comment/".data = true)
    (hhit : commentCacheHit env req (normalizePath p0) = some cs) :
    (handleRequest env req clientIp now h).1 = .danmu cs.length cs req.formatParam
    ∧ (handleRequest env req clientIp now h).2 = h
    ∧ (handleRequest env req clientIp now h).1 = (handleRequest env req clientIp now h').1 := by
  have key : ∀ g : History, handleRequest env req clientIp now g
      = (.danmu cs.length cs req.formatParam, g) := by
    intro g
    rw [handleRequest_comment env req clientIp now g p0 hm ha hc]
    unfold handleComment
    unfold commentCacheHit at hhit
    by_cases hu : jsTruthy req.urlParam = true
    · rw [if_pos hu] at hhit
      rw [if_pos hu, hhit]
    · have hu' : jsTruthy req.urlParam = false := by
        cases hx : jsTruthy req.urlParam
        · rfl
        · exact absurd hx hu
      rw [if_neg hu] at hhit
      rw [if_neg hu, if_neg ?_, hhit]
      rw [hseg hu']
      decide
  exact ⟨by rw [key h], by rw [key h], by rw [key h, key h']⟩

/-- C1 (witness): with a cache entry for `u1`, the url-addressed request is
answered from the cache, independently of two different histories. -/
theorem cache_hit_skips_rate_limiter_witness :
    (handleRequest envA reqUrl "ip".data 0 hist0).1
      = .danmu (List.length [1, 2]) [1, 2] reqUrl.formatParam
    ∧ (handleRequest envA reqUrl "ip".data 0 hist0).2 = hist0
    ∧ (handleRequest envA reqUrl "ip".data 0 hist0).1
      = (handleRequest envA reqUrl "ip".data 0 hist1).1 :=
  cache_hit_skips_rate_limiter envA reqUrl "ip".data 0 hist0 hist1
    "/api/v2/comment".data [1, 2] (by decide) (by decide) (by decide)
    (fun hx => absurd hx (by decide)) (by decide)

/-! ### C4: the MissingParameter condition -/

/-- C4 (counterexample): `GET` on the authenticated path
`/api/v2/comment/abc` with no `url` parameter has a trailing segment that
fails integer parsing, yet the code does not return 400: it falls through
to admission and delegates to the comment handler (limiter disabled here). -/
theorem missing_param_cex :
    (handleRequest envB reqBadId "ip".data 0 hist0).1
      = .comment "/api/v2/comment/abc".data none
    ∧ (handleRequest envB reqBadId "ip".data 0 hist0).1 ≠ .errJson 400 body400 := by
  refine ⟨by decide, by decide⟩

/-- C4 (amended): for a GET comment-family request with no truthy `url`
parameter, the 400 `MissingParameter` response is produced when the
normalized path does not extend `/api/v2/comment/` — i.e. when no
trailing-segment slot exists at all; a present but unparsable segment does
not produce 400. -/
theorem missing_param_400 (env : Env) (req : Req) (clientIp : JStr) (now : Int)
    (h : History) (p0 : JStr)
    (hm : req.method = "GET".data)
    (ha : stripToken env.token req.path = some p0)
    (hc : strStarts (normalizePath p0) "/api/v2/comment".data = true)
    (hu : jsTruthy req.urlParam = false)
    (hns : strStarts (normalizePath p0) "/api/v2/comment/".data = false) :
    handleRequest env req clientIp now h = (.errJson 400 body400, h) := by
  rw [handleRequest_comment env req clientIp now h p0 hm ha hc]
  unfold handleComment
  rw [if_neg (by rw [hu]; exact fun hx => by cases hx),
      if_pos (by rw [hns]; rfl)]

/-- C4 (witness): `GET /t/api/v2/comment` (path exactly the family root,
no trailing slash) with no `url` parameter yields the 400 body. -/
theorem missing_param_400_witness :
    handleRequest envB reqNoId "ip".data 0 hist0 = (.errJson 400 body400, hist0) :=
  missing_param_400 envB reqNoId "ip".data 0 hist0 "/api/v2/comment".data
    (by decide) (by decide) (by decide) (by decide) (by decide)

/-! ### C6: rejection with no recording -/

/-- C6: a comment request that reaches the rate-limit check (positive
capacity, every cache probe missed) while the client's in-window count has
reached the capacity is answered with HTTP 429
`{errorCode:429, success:false, errorMessage:"Too many requests, please try
again later"}`, and no new timestamp is appended to that client's history:
the stored list remains a sublist of the previous one. -/
theorem rate_limited_429 (env : Env) (req : Req) (clientIp : JStr) (now : Int)
    (h : History) (p0 : JStr)
    (hm : req.method = "GET".data)
    (ha : stripToken env.token req.path = some p0)
    (hc : strStarts (normalizePath p0) "/api/v2/comment".data = true)
    (hmiss : commentMiss env req (normalizePath p0))
    (hcap : 0 < env.rateLimitMaxRequests)
    (hcount : env.rateLimitMaxRequests ≤ ((recentRequests now clientIp h).length : Int)) :
    (handleRequest env req clientIp now h).1 = .errJson 429 body429
    ∧ List.Sublist ((handleRequest env req clientIp now h).2 clientIp) (h clientIp) := by
  have hadmit : rateLimitAdmit env.rateLimitMaxRequests now clientIp h
      = (false, cleanupExpiredIPs now h) := by
    unfold rateLimitAdmit
    rw [if_pos hcap, if_pos hcount]
  have key : handleRequest env req clientIp now h
      = (.errJson 429 body429, cleanupExpiredIPs now h) := by
    rw [handleRequest_comment env req clientIp now h p0 hm ha hc]
    unfold handleComment
    rcases hmiss with ⟨hu, hnone⟩ | ⟨hu, hslash, hnone⟩
    · rw [if_pos hu, hnone, hadmit]
      dsimp only
      rw [if_neg (by decide)]
    · rw [if_neg (by rw [hu]; exact fun hx => by cases hx),
          if_neg (by rw [hslash]; exact fun hx => by cases hx), hnone, hadmit]
      dsimp only
      rw [if_neg (by decide)]
  refine ⟨by rw [key], ?_⟩
  rw [key]
  exact List.filter_sublist _

/-- C6 (witness): capacity 1, one in-window entry, url-addressed cache
miss: the request is rejected with the 429 body and nothing is appended. -/
theorem rate_limited_429_witness :
    (handleRequest envC reqUrl "ip".data 10 hist1).1 = .errJson 429 body429
    ∧ List.Sublist ((handleRequest envC reqUrl "ip".data 10 hist1).2 "ip".data)
        (hist1 "ip".data) :=
  rate_limited_429 envC reqUrl "ip".data 10 hist1 "/api/v2/comment".data
    (by decide) (by decide) (by decide) (Or.inl ⟨by decide, by decide⟩)
    (by decide) (by decide)

/-! ### C10: the stored history after an admission -/

/-- C10: an admitted comment request with positive capacity stores, for the
requesting client, exactly its previous in-window timestamps followed by
the current time; the stored list therefore has length at most the
capacity, and every stored entry lies within the trailing 60-second
window. -/
theorem admitted_history_update (env : Env) (req : Req) (clientIp : JStr) (now : Int)
    (h : History) (p0 : JStr)
    (hm : req.method = "GET".data)
    (ha : stripToken env.token req.path = some p0)
    (hc : strStarts (normalizePath p0) "/api/v2/comment".data = true)
    (hmiss : commentMiss env req (normalizePath p0))
    (hcap : 0 < env.rateLimitMaxRequests)
    (hadm : (((h clientIp).filter (inWindow now)).length : Int) < env.rateLimitMaxRequests) :
    (handleRequest env req clientIp now h).2 clientIp
      = (h clientIp).filter (inWindow now) ++ [now]
    ∧ ((((h clientIp).filter (inWindow now) ++ [now]).length : Int)
        ≤ env.rateLimitMaxRequests)
    ∧ ∀ ts ∈ (handleRequest env req clientIp now h).2 clientIp, now - ts ≤ 60000 := by
  have hrec : recentRequests now clientIp h = (h clientIp).filter (inWindow now) :=
    recentRequests_eq now clientIp h
  have hok : ¬(env.rateLimitMaxRequests ≤ ((recentRequests now clientIp h).length : Int)) := by
    rw [hrec]; omega
  have hadmit : rateLimitAdmit env.rateLimitMaxRequests now clientIp h
      = (true, fun ip =>
          if ip = clientIp then recentRequests now clientIp h ++ [now]
          else cleanupExpiredIPs now h ip) := by
    unfold rateLimitAdmit
    rw [if_pos hcap, if_neg hok]
  have hsnd : (handleRequest env req clientIp now h).2
      = fun ip => if ip = clientIp then recentRequests now clientIp h ++ [now]
          else cleanupExpiredIPs now h ip := by
    rw [handleRequest_comment env req clientIp now h p0 hm ha hc]
    unfold handleComment
    rcases hmiss with ⟨hu, hnone⟩ | ⟨hu, hslash, hnone⟩
    · rw [if_pos hu, hnone, hadmit]
      dsimp only
      rw [if_pos rfl]
    · rw [if_neg (by rw [hu]; exact fun hx => by cases hx),
          if_neg (by rw [hslash]; exact fun hx => by cases hx), hnone, hadmit]
      dsimp only
      rw [if_pos rfl]
  have hstores : (handleRequest env req clientIp now h).2 clientIp
      = (h clientIp).filter (inWindow now) ++ [now] := by
    rw [hsnd]
    simp [hrec]
  refine ⟨hstores, ?_, ?_⟩
  · have h1 : ((h clientIp).filter (inWindow now) ++ [now]).length
        = ((h clientIp).filter (inWindow now)).length + 1 := by
      simp
    rw [h1]
    push_cast
    omega
  · intro ts hts
    rw [hstores] at hts
    rcases List.mem_append.mp hts with hts | hts
    · have := (List.mem_filter.mp hts).2
      unfold inWindow at this
      exact of_decide_eq_true this
    · rcases List.mem_singleton.mp hts with rfl
      omega

/-- C10 (witness): capacity 1, empty prior history, admission at time 5
stores exactly `[5]`. -/
theorem admitted_history_update_witness :
    (handleRequest envC reqUrl "ip".data 5 hist0).2 "ip".data
      = (hist0 "ip".data).filter (inWindow 5) ++ [5]
    ∧ ((((hist0 "ip".data).filter (inWindow 5) ++ [5]).length : Int)
        ≤ envC.rateLimitMaxRequests)
    ∧ ∀ ts ∈ (handleRequest envC reqUrl "ip".data 5 hist0).2 "ip".data,
        (5 : Int) - ts ≤ 60000 :=
  admitted_history_update envC reqUrl "ip".data 5 hist0 "/api/v2/comment".data
    (by decide) (by decide) (by decide) (Or.inl ⟨by decide, by decide⟩)
    (by decide) (by decide)

/-! ### C9: the disabled limiter -/

theorem rateLimitAdmit_nonpos (cap now : Int) (clientIp : JStr) (h : History)
    (hcap : cap ≤ 0) : rateLimitAdmit cap now clientIp h = (true, h) := by
  unfold rateLimitAdmit
  rw [if_neg (by omega)]

theorem handleComment_cap_nonpos (env : Env) (req : Req) (path clientIp : JStr)
    (now : Int) (h : History) (hcap : env.rateLimitMaxRequests ≤ 0) :
    (handleComment env req path clientIp now h).2 = h
    ∧ ∀ b : ErrorBody, (handleComment env req path clientIp now h).1 ≠ .errJson 429 b := by
  unfold handleComment
  rw [rateLimitAdmit_nonpos env.rateLimitMaxRequests now clientIp h hcap]
  split
  · split
    · exact ⟨rfl, fun b => by simp⟩
    · dsimp only
      rw [if_pos rfl]
      exact ⟨rfl, fun b => by simp⟩
  · split
    · exact ⟨rfl, fun b => by simp⟩
    · split
      · exact ⟨rfl, fun b => by simp⟩
      · dsimp only
        rw [if_pos rfl]
        exact ⟨rfl, fun b => by simp⟩

theorem handleRequest_cap_nonpos (env : Env) (req : Req) (clientIp : JStr)
    (now : Int) (h : History) (hcap : env.rateLimitMaxRequests ≤ 0) :
    (handleRequest env req clientIp now h).2 = h
    ∧ ∀ b : ErrorBody, (handleRequest env req clientIp now h).1 ≠ .errJson 429 b := by
  unfold handleRequest
  split
  · exact ⟨rfl, fun b => by simp⟩
  · split
    · exact ⟨rfl, fun b => by simp⟩
    · split
      · exact ⟨rfl, fun b => by simp⟩
      · dsimp only
        split
        · exact ⟨rfl, fun b => by simp⟩
        · split
          · exact ⟨rfl, fun b => by simp⟩
          · split
            · exact ⟨rfl, fun b => by simp⟩
            · split
              · exact ⟨rfl, fun b => by simp⟩
              · split
                · exact ⟨rfl, fun b => by simp⟩
                · split
                  · exact handleComment_cap_nonpos env req _ clientIp now h hcap
                  · split
                    · exact ⟨rfl, fun b => by simp⟩
                    · exact ⟨rfl, fun b => by simp⟩

/-- C9: with the configured capacity at most 0, any sequence of requests
leaves `ClientRequestHistory` untouched and no response is ever the 429
rate-limit rejection — the limiter is a no-op pass-through. -/
theorem disabled_limiter (env : Env) (hcap : env.rateLimitMaxRequests ≤ 0)
    (reqs : List (Req × JStr × Int)) (h : History) :
    (runRequests env reqs h).2 = h
    ∧ ∀ r ∈ (runRequests env reqs h).1, ∀ b : ErrorBody, r ≠ .errJson 429 b := by
  induction reqs generalizing h with
  | nil => exact ⟨rfl, by simp [runRequests]⟩
  | cons x rest ih =>
    obtain ⟨req, ip, now⟩ := x
    have h1 := handleRequest_cap_nonpos env req ip now h hcap
    have h2 := ih (handleRequest env req ip now h).2
    refine ⟨?_, ?_⟩
    · show (runRequests env rest (handleRequest env req ip now h).2).2 = h
      rw [h2.1, h1.1]
    · intro r hr b
      have hr' : r = (handleRequest env req ip now h).1
          ∨ r ∈ (runRequests env rest (handleRequest env req ip now h).2).1 := by
        simpa [runRequests] using hr
      rcases hr' with rfl | hr'
      · exact h1.2 b
      · exact h2.2 r hr' b

/-- C9 (witness): two rapid url-addressed comment calls with capacity 0
leave the history unchanged and produce no 429. -/
theorem disabled_limiter_witness :
    (runRequests envB [(reqUrl, "ip".data, 0), (reqUrl, "ip".data, 1)] hist0).2 = hist0
    ∧ ∀ r ∈ (runRequests envB [(reqUrl, "ip".data, 0), (reqUrl, "ip".data, 1)] hist0).1,
        ∀ b : ErrorBody, r ≠ .errJson 429 b :=
  disabled_limiter envB (by decide) [(reqUrl, "ip".data, 0), (reqUrl, "ip".data, 1)] hist0

/-! ### C5: the sliding-window capacity invariant -/

theorem bool_eq_of_iff {a b : Bool} (h : a = true ↔ b = true) : a = b := by
  cases a <;> cases b <;> simp_all

theorem filter_congr_mem {α : Type} {p q : α → Bool} :
    ∀ (l : List α), (∀ a ∈ l, p a = q a) → l.filter p = l.filter q := by
  intro l
  induction l with
  | nil => intro _; rfl
  | cons x l ih =>
    intro hpq
    have hx := hpq x (by simp)
    simp only [List.filter_cons, hx, ih (fun a ha => hpq a (by simp [ha]))]

theorem filter_length_mono_of_mem {α : Type} {p q : α → Bool} :
    ∀ (l : List α), (∀ a ∈ l, p a = true → q a = true) →
    (l.filter p).length ≤ (l.filter q).length := by
  intro l
  induction l with
  | nil => intro _; simp
  | cons x l ih =>
    intro hpq
    have hrest := ih (fun a ha => hpq a (by simp [ha]))
    by_cases hx : p x = true
    · have hqx : q x = true := hpq x (by simp) hx
      simp only [List.filter_cons, hx, hqx, if_true, List.length_cons]
      omega
    · have hx' : p x = false := by simpa using hx
      cases hq : q x
      · simp only [List.filter_cons, hx', hq, Bool.false_eq_true, if_false]
        exact hrest
      · simp only [List.filter_cons, hx', hq, Bool.false_eq_true, if_false, if_true,
          List.length_cons]
        omega

theorem filter_window_mono (t0 s : Int) (hts : t0 ≤ s) (A : List Int) :
    (A.filter (inWindow t0)).filter (inWindow s) = A.filter (inWindow s) := by
  induction A with
  | nil => rfl
  | cons a A ih =>
    have himp : inWindow s a = true → inWindow t0 a = true := by
      unfold inWindow
      simp only [decide_eq_true_eq]
      omega
    by_cases hs : inWindow s a = true
    · simp only [List.filter_cons, hs, himp hs, if_true, ih]
    · have hs' : inWindow s a = false := by simpa using hs
      by_cases h0 : inWindow t0 a = true
      · simp only [List.filter_cons, hs', h0, Bool.false_eq_true, if_true, if_false,
          List.filter_cons, ih]
      · have h0' : inWindow t0 a = false := by simpa using h0
        simp only [List.filter_cons, hs', h0', Bool.false_eq_true, if_false, ih]

theorem winBound_snoc (N : Int) (A : List Int) (s : Int)
    (hA : ∀ a ∈ A, a ≤ s)
    (hW : ∀ t : Int, (((A.filter (inClosedWindow t)).length : Int) ≤ N))
    (hs : ((((A ++ [s]).filter (inClosedWindow s)).length : Int) ≤ N)) :
    ∀ t : Int, ((((A ++ [s]).filter (inClosedWindow t)).length : Int) ≤ N) := by
  intro t
  by_cases h1 : s ≤ t
  · by_cases h2 : t - 60000 ≤ s
    · refine le_trans ?_ hs
      have hmono := filter_length_mono_of_mem (p := inClosedWindow t) (q := inClosedWindow s)
        (A ++ [s]) ?_
      · exact_mod_cast hmono
      · intro a ha hpa
        have haA : a ≤ s := by
          rcases List.mem_append.mp ha with hm | hm
          · exact hA a hm
          · rcases List.mem_singleton.mp hm with rfl
            exact le_rfl
        unfold inClosedWindow at hpa ⊢
        simp only [Bool.and_eq_true, decide_eq_true_eq] at hpa ⊢
        omega
    · have hnil : (A ++ [s]).filter (inClosedWindow t) = [] := by
        rw [List.filter_eq_nil_iff]
        intro a ha
        have haA : a ≤ s := by
          rcases List.mem_append.mp ha with hm | hm
          · exact hA a hm
          · rcases List.mem_singleton.mp hm with rfl
            exact le_rfl
        unfold inClosedWindow
        simp only [Bool.and_eq_true, decide_eq_true_eq, not_and]
        omega
      rw [hnil]
      have := hW t
      simp only [List.length_nil]
      omega
  · have hrw : (A ++ [s]).filter (inClosedWindow t) = A.filter (inClosedWindow t) := by
      rw [List.filter_append]
      have hsingle : [s].filter (inClosedWindow t) = [] := by
        have : inClosedWindow t s = false := by
          unfold inClosedWindow
          simp only [Bool.and_eq_false_iff, decide_eq_false_iff_not]
          right
          omega
        simp [List.filter_cons, this]
      rw [hsingle, List.append_nil]
    rw [hrw]
    exact hW t

theorem admitSeq_bound (N : Int) (hN : 0 < N) (c : JStr) :
    ∀ (times : List Int), List.Pairwise (· ≤ ·) times →
    ∀ (A : List Int) (t0 : Int) (h : History),
      (∀ a ∈ A, a ≤ t0) → (∀ s ∈ times, t0 ≤ s) →
      h c = A.filter (inWindow t0) →
      (∀ t : Int, (((A.filter (inClosedWindow t)).length : Int) ≤ N)) →
      ∀ t : Int,
        ((((A ++ admittedTimes times (admitSeq N c times h).1).filter
            (inClosedWindow t)).length : Int) ≤ N) := by
  intro times
  induction times with
  | nil =>
    intro _ A t0 h hA _ _ hW t
    simpa [admitSeq, admittedTimes] using hW t
  | cons s ts ih =>
    intro hpw A t0 h hA hts hhc hW t
    obtain ⟨hhead, htail⟩ := List.pairwise_cons.mp hpw
    have ht0s : t0 ≤ s := hts s (by simp)
    have hAs : ∀ a ∈ A, a ≤ s := fun a ha => (hA a ha).trans ht0s
    have hrecent : recentRequests s c h = A.filter (inWindow s) := by
      rw [recentRequests_eq, hhc, filter_window_mono t0 s ht0s]
    by_cases hrej : N ≤ ((recentRequests s c h).length : Int)
    · have hstep : rateLimitAdmit N s c h = (false, cleanupExpiredIPs s h) := by
        unfold rateLimitAdmit
        rw [if_pos hN, if_pos hrej]
      have hh1 : (cleanupExpiredIPs s h) c = A.filter (inWindow s) := by
        unfold cleanupExpiredIPs
        rw [hhc, filter_window_mono t0 s ht0s]
      have hseq1 : (admitSeq N c (s :: ts) h).1
          = false :: (admitSeq N c ts (cleanupExpiredIPs s h)).1 := by
        show (rateLimitAdmit N s c h).1
            :: (admitSeq N c ts (rateLimitAdmit N s c h).2).1
          = false :: (admitSeq N c ts (cleanupExpiredIPs s h)).1
        rw [hstep]
      rw [hseq1]
      have hadf : admittedTimes (s :: ts)
            (false :: (admitSeq N c ts (cleanupExpiredIPs s h)).1)
          = admittedTimes ts (admitSeq N c ts (cleanupExpiredIPs s h)).1 := by
        simp [admittedTimes]
      rw [hadf]
      exact ih htail A s (cleanupExpiredIPs s h) hAs hhead hh1 hW t
    · have hstep : rateLimitAdmit N s c h
          = (true, fun ip => if ip = c then recentRequests s c h ++ [s]
              else cleanupExpiredIPs s h ip) := by
        unfold rateLimitAdmit
        rw [if_pos hN, if_neg hrej]
      have hh1 : (fun ip => if ip = c then recentRequests s c h ++ [s]
          else cleanupExpiredIPs s h ip) c = (A ++ [s]).filter (inWindow s) := by
        show (if c = c then recentRequests s c h ++ [s] else cleanupExpiredIPs s h c)
            = (A ++ [s]).filter (inWindow s)
        rw [if_pos rfl, hrecent, List.filter_append]
        have hss : [s].filter (inWindow s) = [s] := by
          have hw : inWindow s s = true := by
            unfold inWindow
            simp only [decide_eq_true_eq]
            omega
          simp [List.filter_cons, hw]
        rw [hss]
      have hAclosed : A.filter (inClosedWindow s) = A.filter (inWindow s) :=
        filter_congr_mem A (fun a ha => by
          have haS : a ≤ s := hAs a ha
          apply bool_eq_of_iff
          unfold inClosedWindow inWindow
          simp only [Bool.and_eq_true, decide_eq_true_eq]
          omega)
      have hcnt : ((((A ++ [s]).filter (inClosedWindow s)).length : Int) ≤ N) := by
        rw [List.filter_append, hAclosed]
        have hss : [s].filter (inClosedWindow s) = [s] := by
          have : inClosedWindow s s = true := by
            unfold inClosedWindow
            simp only [Bool.and_eq_true, decide_eq_true_eq]
            omega
          simp [List.filter_cons, this]
        rw [hss, hrecent] at *
        have hlen : ((A.filter (inWindow s)).length : Int) < N := by omega
        have : (A.filter (inWindow s) ++ [s]).length
            = (A.filter (inWindow s)).length + 1 := by simp
        rw [this]
        push_cast
        omega
      have hW' : ∀ t : Int, ((((A ++ [s]).filter (inClosedWindow t)).length : Int) ≤ N) :=
        winBound_snoc N A s hAs hW hcnt
      have hseq1 : (admitSeq N c (s :: ts) h).1
          = true :: (admitSeq N c ts (fun ip => if ip = c then recentRequests s c h ++ [s]
              else cleanupExpiredIPs s h ip)).1 := by
        show (rateLimitAdmit N s c h).1
            :: (admitSeq N c ts (rateLimitAdmit N s c h).2).1
          = _
        rw [hstep]
      rw [hseq1]
      have hadf : admittedTimes (s :: ts)
            (true :: (admitSeq N c ts (fun ip => if ip = c then recentRequests s c h ++ [s]
                else cleanupExpiredIPs s h ip)).1)
          = s :: admittedTimes ts (admitSeq N c ts (fun ip =>
              if ip = c then recentRequests s c h ++ [s]
              else cleanupExpiredIPs s h ip)).1 := by
        simp [admittedTimes]
      rw [hadf]
      have hAs' : ∀ a ∈ A ++ [s], a ≤ s := by
        intro a ha
        rcases List.mem_append.mp ha with hm | hm
        · exact hAs a hm
        · rcases List.mem_singleton.mp hm with rfl
          exact le_rfl
      have hfin := ih htail (A ++ [s]) s
        (fun ip => if ip = c then recentRequests s c h ++ [s] else cleanupExpiredIPs s h ip)
        hAs' hhead hh1 hW' t
      simpa [List.append_assoc] using hfin

/-- C5: with capacity `N > 0` and non-decreasing request times from one
client starting from an empty history, no trailing 60-second window ever
contains more than `N` admitted timestamps. -/
theorem sliding_window_capacity (N : Int) (hN : 0 < N) (c : JStr) (times : List Int)
    (hmono : List.Pairwise (· ≤ ·) times) (h : History) (hempty : h c = [])
    (t : Int) :
    (((admittedTimes times (admitSeq N c times h).1).filter
        (inClosedWindow t)).length : Int) ≤ N := by
  cases times with
  | nil =>
    simp only [admitSeq, admittedTimes, List.filter_nil, List.length_nil]
    omega
  | cons s ts =>
    obtain ⟨hhead, htail⟩ := List.pairwise_cons.mp hmono
    have hfin := admitSeq_bound N hN c (s :: ts) hmono [] s h (by simp)
      (by
        intro x hx
        rcases List.mem_cons.mp hx with rfl | hx
        · exact le_rfl
        · exact hhead x hx)
      (by simp [hempty])
      (by
        intro t
        simp only [List.filter_nil, List.length_nil]
        omega) t
    simpa using hfin

/-- C5 (witness): capacity 1, calls at times 0 and 10; only the first is
admitted and the window ending at 10 holds one admitted timestamp. -/
theorem sliding_window_capacity_witness :
    (((admittedTimes [0, 10] (admitSeq 1 "ip".data [0, 10] hist0).1).filter
        (inClosedWindow 10)).length : Int) ≤ 1 :=
  sliding_window_capacity 1 (by decide) "ip".data [0, 10] (by decide) hist0 rfl 10
